import Mathlib

/-!
# Verification of the mark-tab-manager tab organization engine and settings store

Shallow embedding of the repository's core logic:

* `SiteOrganizer` (current engine): alphabetical-by-domain tab sorting
  (`sortTabsAlphabetically` / `domainCompare`), clustering into
  `(domain, windowId)` buckets (`sortTabIdsByDomain`), and rendering of native
  tab groups (`renderBrowserTabGroups` / `getColorForGroup`), plus the
  incremental event handlers over the `groupByTabId` map.
* `TabOrganizer` (legacy engine): the older flat, per-domain clustering.
* `Store`: the migrating settings store (`parseValidState`, `migrateState`,
  `setState`).

External collaborators are parameters of the model: `pd` stands for
`parseSharedDomain` (hostname → registrable-domain label) and `hn` for
`new URL(url).hostname`; the browser's tab-group color palette is a list
parameter.  JavaScript's `localeCompare` is modelled as code-point
lexicographic comparison (the `String` linear order).  JavaScript objects and
`Map`s are modelled as association lists with insertion-order keys: key
assignment updates an existing key in place and otherwise appends, exactly the
observable semantics of `obj[k] = v` / `Map.set` for unique-key objects.
`Array.prototype.sort` (stable per the ECMAScript spec) is modelled as the
stable comparison sort `List.insertionSort`.
-/

namespace MarkTab

/-- JS object / `Map` lookup on an association list (first matching key). -/
def aget {K V : Type} [DecidableEq K] : List (K × V) → K → Option V
  | [], _ => none
  | p :: rest, k => if p.1 = k then some p.2 else aget rest k

/-- JS object / `Map` key assignment: update an existing key in place
(keys are unique in all objects we build), otherwise append. -/
def aset {K V : Type} [DecidableEq K] : List (K × V) → K → V → List (K × V)
  | [], k, v => [(k, v)]
  | p :: rest, k, v => if p.1 = k then (k, v) :: rest else p :: aset rest k v

/-- JS `Map.delete` / key removal. -/
def adel {K V : Type} [DecidableEq K] (o : List (K × V)) (k : K) : List (K × V) :=
  o.filter (fun p => p.1 ≠ k)

/-- JS object spread merge `\x7b...a, ...b\x7d`: start from `a` and assign
every key of `b` in order. -/
def amerge {K V : Type} [DecidableEq K] (a b : List (K × V)) : List (K × V) :=
  b.foldl (fun o p => aset o p.1 p.2) a

/-- `Object.keys`: the keys of an object in insertion order. -/
def keyList {K V : Type} (o : List (K × V)) : List K :=
  o.map (fun p => p.1)

/-- JS falsiness of an optional string (`undefined` and `""` are falsy). -/
def falsyStr : Option String → Bool
  | none => true
  | some s => s = ""

/-- JS falsiness of an optional number (`undefined` and `0` are falsy). -/
def falsyId : Option Nat → Bool
  | none => true
  | some n => n = 0

/-- A browser tab snapshot as consumed by the engine. -/
structure Tab where
  id : Option Nat
  url : Option String
  windowId : Nat
  pinned : Bool
deriving DecidableEq, Repr

namespace SiteOrganizer

variable (pd hn : String → String)

/-- `localeCompare`, modelled as code-point lexicographic comparison. -/
def lcmp (a b : String) : Int :=
  if a < b then -1 else if a = b then 0 else 1

/-- `SiteOrganizer.domainCompare`: comparator where equal domains tie and the
sentinel domain `"new"` sorts after everything else. -/
def domainCompare (a b : String) : Int :=
  if a = b then 0
  else if a = "new" then 1
  else if b = "new" then -1
  else lcmp a b

/-- The domain label computed for a tab inside the sort comparator:
`parseSharedDomain(new URL(tab.url).hostname)`.  The source throws when the
url is absent; the model totalizes with `""` and theorems assume all urls are
present. -/
def tabDomain (t : Tab) : String :=
  match t.url with
  | some u => pd (hn u)
  | none => ""

/-- The comparator relation used by the sort: `domainCompare ≤ 0`. -/
def tabLe (a b : Tab) : Prop :=
  domainCompare (tabDomain pd hn a) (tabDomain pd hn b) ≤ 0

instance : DecidableRel (tabLe pd hn) := fun a b => by
  unfold tabLe
  infer_instance

/-- `SiteOrganizer.sortTabsAlphabetically`: stable sort of the tab list by
`domainCompare` on the computed domain labels. -/
def sortTabsAlphabetically (ts : List Tab) : List Tab :=
  List.insertionSort (tabLe pd hn) ts

/-- `SiteOrganizer.filterNonPinnedTabs`. -/
def filterNonPinnedTabs (ts : List Tab) : List Tab :=
  ts.filter (fun t => !t.pinned)

/-- `(domain, windowId)` clustering buckets: an insertion-ordered object of
domain label to an object of window id to tab-id array. -/
abbrev Buckets : Type :=
  List (String × List (Nat × List Nat))

/-- One tab of `SiteOrganizer.sortTabIdsByDomain`'s `forEach` body: throw on
a falsy tab id or url, otherwise add the tab id to its
`(domain, windowId)` bucket. -/
def clusterStep (acc : Buckets) (tab : Tab) : Except String Buckets :=
  if falsyId tab.id then Except.error "No id for tab"
  else if falsyStr tab.url then Except.error "No tab url"
  else
    let id := tab.id.getD 0
    let u := tab.url.getD ""
    let domain := pd (hn u)
    match aget acc domain with
    | none => Except.ok (aset acc domain [(tab.windowId, [id])])
    | some inner =>
      match aget inner tab.windowId with
      | none => Except.ok (aset acc domain (aset inner tab.windowId [id]))
      | some ids =>
        Except.ok (aset acc domain (aset inner tab.windowId (ids ++ [id])))

/-- `SiteOrganizer.sortTabIdsByDomain`: partition tabs into
`(domain, windowId)` buckets; throws on a falsy tab id or url. -/
def sortTabIdsByDomain (ts : List Tab) : Except String Buckets :=
  ts.foldlM (clusterStep pd hn) []

end SiteOrganizer

namespace SiteOrganizer

/-- A browser command issued by `renderBrowserTabGroups`: either ungroup a
tab-id list, or create a group with a color index, name, window id and
tab-id list. -/
inductive Cmd where
  | ungroup (tabIds : List Nat)
  | group (idx : Int) (name : String) (windowId : Nat) (tabIds : List Nat)
deriving DecidableEq, Repr

/-- One bucket step of `renderBrowserTabGroups`: a bucket of fewer than two
tabs is ungrouped and bumps the orphan offset; otherwise a group is created
with color index `idx - offset` where `idx` is the position of the bucket's
domain name among all names. -/
def renderBucket (idx : Int) (name : String) (st : Int × List Cmd)
    (wg : Nat × List Nat) : Int × List Cmd :=
  if wg.2.length < 2 then (st.1 + 1, st.2 ++ [Cmd.ungroup wg.2])
  else (st.1, st.2 ++ [Cmd.group (idx - st.1) name wg.1 wg.2])

/-- The per-name step of `renderBrowserTabGroups`: real groups (more than one
tab) of a name are processed before its orphan groups. -/
def renderName (st : Int × List Cmd)
    (np : Nat × (String × List (Nat × List Nat))) : Int × List Cmd :=
  let idx : Int := np.1
  let name := np.2.1
  let windows := np.2.2
  let realGroups := windows.filter (fun w => w.2.length > 1)
  let orphanGroups := windows.filter (fun w => ¬w.2.length > 1)
  (realGroups ++ orphanGroups).foldl (renderBucket idx name) st

/-- `SiteOrganizer.renderBrowserTabGroups`: walk the buckets, carrying the
orphan offset across names, and emit the group/ungroup commands. -/
def renderBrowserTabGroups (g : Buckets) : List Cmd :=
  (g.enum.foldl renderName (0, [])).2

/-- `SiteOrganizer.getColorForGroup`: pick a palette color by
`index % palette.length`, with JS remainder semantics (a negative index
yields `undefined`). -/
def getColorForGroup (colors : List String) (index : Int) : Option String :=
  if colors.length = 0 then none
  else
    let colorIdx := Int.tmod index colors.length
    if colorIdx < 0 then none else colors.get? colorIdx.toNat

/-- The set (as an ordered list) of real-group buckets: the
`(domain, windowId)` pairs holding at least two tabs. -/
def realGroupBuckets (g : Buckets) : List (String × Nat) :=
  g.foldr
    (fun nw acc =>
      (nw.2.filter (fun w => w.2.length > 1)).map (fun w => (nw.1, w.1)) ++ acc)
    []

/-- Modelled from the spec: the ordered color palette exposed by the browser
gateway (`colorPalette() → ordered set of Color`; the enum object
`browser.tabGroups.Color` is not part of the repository).  The concrete names
are Chrome's tab group colors; only the count and order matter here. -/
def colorPalette : List String :=
  ["grey", "blue", "red", "yellow", "green", "pink", "purple", "cyan"]

/-- The `changeInfo` payload of a `tabs.onUpdated` event. -/
structure ChangeInfo where
  status : Option String
  url : Option String
deriving DecidableEq, Repr

end SiteOrganizer

namespace SiteOrganizer

variable (pd hn : String → String)

/-- The `tabs.onUpdated` listener: returns the new `groupByTabId` map and
whether `organize()` was invoked.  Mirrors the early returns for a non-loading
status, a missing url, and an unchanged domain; the map is updated regardless
of the auto-sort setting, and `organize()` runs only when it is enabled. -/
def onUpdatedListener (m : List (Nat × String)) (tabId : Nat)
    (changeInfo : ChangeInfo) (enableAutomaticSorting : Bool) :
    List (Nat × String) × Bool :=
  if changeInfo.status ≠ some "loading" then (m, false)
  else if falsyStr changeInfo.url then (m, false)
  else
    let domain := pd (hn (changeInfo.url.getD ""))
    let hasGroupChanged := aget m tabId ≠ some domain
    if ¬hasGroupChanged then (m, false)
    else
      let m2 := aset m tabId domain
      if ¬enableAutomaticSorting then (m2, false) else (m2, true)

/-- The `tabs.onRemoved` listener: unconditionally delete the tab id from
`groupByTabId`, then invoke `organize()` only when auto-sorting is enabled. -/
def onRemovedListener (m : List (Nat × String)) (tabId : Nat)
    (enableAutomaticSorting : Bool) : List (Nat × String) × Bool :=
  let m2 := adel m tabId
  if ¬enableAutomaticSorting then (m2, false) else (m2, true)

end SiteOrganizer

namespace TabOrganizer

variable (pd hn : String → String)

/-- One tab of the legacy `TabOrganizer.sortTabIdsByDomain` `forEach` body:
skip tabs with a falsy url, fall back to the `"system"` label when the parsed
domain is falsy (empty), and bucket the (possibly absent) tab id per domain
only. -/
def legacyClusterStep (acc : List (String × List (Option Nat))) (tab : Tab) :
    List (String × List (Option Nat)) :=
  if falsyStr tab.url then acc
  else
    let u := tab.url.getD ""
    let d0 := pd (hn u)
    let domain := if d0 = "" then "system" else d0
    match aget acc domain with
    | none => aset acc domain [tab.id]
    | some ids => aset acc domain (ids ++ [tab.id])

/-- Legacy `TabOrganizer.sortTabIdsByDomain`: cluster the tabs per domain
label, skipping tabs without a usable url. -/
def sortTabIdsByDomain (ts : List Tab) : List (String × List (Option Nat)) :=
  ts.foldl (legacyClusterStep pd hn) []

/-- The domain label the legacy clustering assigns to a tab with a usable
url: the parsed domain, or `"system"` when the parse is empty. -/
def legacyLabel (t : Tab) : String :=
  let d0 := pd (hn (t.url.getD ""))
  if d0 = "" then "system" else d0

end TabOrganizer

namespace Store

/-- `Store.makeDefaultState`: the current settings schema with defaults. -/
def makeDefaultState : List (String × Bool) :=
  [("clusterGroupedTabs", true),
   ("enableAutomaticGrouping", true),
   ("enableAlphabeticSorting", true),
   ("enableSubdomainFiltering", false),
   ("forceWindowConsolidation", false)]

/-- `Store.makeLegacyState`: legacy keys with their original defaults. -/
def makeLegacyState : List (String × Bool) :=
  [("enableAutomaticSorting", true)]

/-- `Store.isKeyValid`: the key is in the current schema. -/
def isKeyValid (key : String) : Bool :=
  (keyList makeDefaultState).contains key

/-- `Store.isLegacyKeyValid`: the key is a known legacy key. -/
def isLegacyKeyValid (key : String) : Bool :=
  (keyList makeLegacyState).contains key

/-- `Store.getMigratedKey`: the replacement name of a legacy key, if any. -/
def getMigratedKey (key : String) : Option String :=
  if key = "enableAutomaticSorting" then some "enableAlphabeticSorting"
  else none

/-- One legacy key of `Store.migrateState`'s `forEach` body: look up the
migrated name and carry the legacy key's value from `state` over to it.
(In the source the lookup `state[legacyStateKey]` always succeeds because the
key came from `Object.keys(state)`; the `none` branch is unreachable there.) -/
def migrateStep {V : Type} (state : List (String × V))
    (acc : List (String × V)) (k : String) : List (String × V) :=
  match getMigratedKey k with
  | none => acc
  | some migratedKey =>
    match aget state k with
    | some v => aset acc migratedKey v
    | none => acc

/-- `Store.migrateState`: map every legacy key among `keys` to its migrated
name, carrying the legacy key's value from `state`. -/
def migrateState {V : Type} (keys : List String) (state : List (String × V)) :
    List (String × V) :=
  (keys.filter isLegacyKeyValid).foldl (migrateStep state) []

/-- One valid key of `Store.parseValidState`'s `forEach` body: copy the
schema-valid key's value through. -/
def copyValidStep {V : Type} (blob : List (String × V))
    (acc : List (String × V)) (k : String) : List (String × V) :=
  match aget blob k with
  | some v => aset acc k v
  | none => acc

/-- `Store.parseValidState` on an already-decoded persisted object: copy the
schema-valid keys through, compute the migrated legacy keys, and overlay the
migrated values over the valid ones. -/
def parseValidState {V : Type} (blob : List (String × V)) :
    List (String × V) :=
  let stateKeys := keyList blob
  let validStateKeys := stateKeys.filter isKeyValid
  let validParsedState := validStateKeys.foldl (copyValidStep blob) []
  let migratedState := migrateState stateKeys blob
  amerge validParsedState migratedState

/-- `Store.setInternalState`: shallow merge of a partial state into the
in-memory state. -/
def setInternalState {V : Type} (state partial_ : List (String × V)) :
    List (String × V) :=
  amerge state partial_

/-- The observable result of `Store.setState`: the in-memory state after the
call, the full state handed to the storage write, and whether the write
succeeded or surfaced an error. -/
structure SetStateResult (V : Type) where
  mem : List (String × V)
  written : List (String × V)
  outcome : Except String Unit
deriving Repr

/-- `Store.setState`: merge the partial state into memory first, then write
the serialized full state; a failed write surfaces a storage error but the
in-memory merge is never rolled back. -/
def setState {V : Type} (state partial_ : List (String × V)) (writeOk : Bool) :
    SetStateResult V :=
  let internalState := setInternalState state partial_
  { mem := internalState
    written := internalState
    outcome := if writeOk then Except.ok () else Except.error "StorageError" }

end Store

/-! ## Association-list lemmas -/

theorem aget_aset_self {K V : Type} [DecidableEq K] (o : List (K × V))
    (k : K) (v : V) : aget (aset o k v) k = some v := by
  induction o with
  | nil => simp [aset, aget]
  | cons p rest ih =>
    by_cases h : p.1 = k
    · simp [aset, h, aget]
    · simp [aset, h, aget, ih]

theorem aget_aset_ne {K V : Type} [DecidableEq K] (o : List (K × V))
    (k k' : K) (v : V) (hne : k' ≠ k) : aget (aset o k v) k' = aget o k' := by
  have hk : ¬(k = k') := fun hh => hne hh.symm
  induction o with
  | nil => simp [aset, aget, hk]
  | cons p rest ih =>
    by_cases h : p.1 = k
    · have hp : ¬(p.1 = k') := by rw [h]; exact hk
      rw [aset, if_pos h]
      simp [aget, hk, hp]
    · rw [aset, if_neg h]
      by_cases h2 : p.1 = k'
      · simp [aget, h2]
      · simp [aget, h2, ih]

theorem aget_adel_self {K V : Type} [DecidableEq K] (o : List (K × V))
    (k : K) : aget (adel o k) k = none := by
  induction o with
  | nil => rfl
  | cons p rest ih =>
    by_cases h : p.1 = k
    · simpa [adel, List.filter_cons, h] using ih
    · simpa [adel, List.filter_cons, h, aget] using ih

theorem mem_aset {K V : Type} [DecidableEq K] {o : List (K × V)} {k : K}
    {v : V} {p : K × V} (h : p ∈ aset o k v) : p ∈ o ∨ p = (k, v) := by
  induction o with
  | nil => simpa [aset] using h
  | cons q rest ih =>
    by_cases hq : q.1 = k
    · rw [aset, if_pos hq] at h
      rcases List.mem_cons.mp h with h1 | h1
      · exact Or.inr h1
      · exact Or.inl (List.mem_cons_of_mem _ h1)
    · rw [aset, if_neg hq] at h
      rcases List.mem_cons.mp h with h1 | h1
      · exact Or.inl (h1 ▸ List.mem_cons_self _ _)
      · rcases ih h1 with h2 | h2
        · exact Or.inl (List.mem_cons_of_mem _ h2)
        · exact Or.inr h2

theorem aget_mem_pair {K V : Type} [DecidableEq K] {o : List (K × V)} {k : K}
    {v : V} (h : aget o k = some v) : (k, v) ∈ o := by
  induction o with
  | nil => simp [aget] at h
  | cons p rest ih =>
    by_cases hp : p.1 = k
    · rw [aget, if_pos hp] at h
      have : p = (k, v) := Prod.ext hp (Option.some_injective _ h)
      exact this ▸ List.mem_cons_self _ _
    · rw [aget, if_neg hp] at h
      exact List.mem_cons_of_mem _ (ih h)

theorem mem_keyList_aset {K V : Type} [DecidableEq K] {o : List (K × V)}
    {k k' : K} {v : V} (h : k' ∈ keyList (aset o k v)) :
    k' ∈ keyList o ∨ k' = k := by
  induction o with
  | nil => simpa [aset, keyList] using h
  | cons q rest ih =>
    by_cases hq : q.1 = k
    · rw [aset, if_pos hq] at h
      rcases List.mem_cons.mp h with h1 | h1
      · exact Or.inr h1
      · exact Or.inl (List.mem_cons_of_mem _ h1)
    · rw [aset, if_neg hq] at h
      rcases List.mem_cons.mp h with h1 | h1
      · exact Or.inl (h1 ▸ List.mem_cons_self _ _)
      · rcases ih h1 with h2 | h2
        · exact Or.inl (List.mem_cons_of_mem _ h2)
        · exact Or.inr h2

theorem nodup_keyList_aset {K V : Type} [DecidableEq K] {o : List (K × V)}
    {k : K} {v : V} (h : (keyList o).Nodup) :
    (keyList (aset o k v)).Nodup := by
  induction o with
  | nil => simp [aset, keyList]
  | cons q rest ih =>
    rw [keyList, List.map_cons, List.nodup_cons] at h
    by_cases hq : q.1 = k
    · rw [aset, if_pos hq, keyList, List.map_cons, List.nodup_cons]
      exact ⟨hq ▸ h.1, h.2⟩
    · rw [aset, if_neg hq, keyList, List.map_cons, List.nodup_cons]
      refine ⟨fun hmem => ?_, ih h.2⟩
      rcases mem_keyList_aset hmem with h1 | h1
      · exact h.1 h1
      · exact hq h1

/-! ## C4, C5, C10: incremental event handlers -/

/-- C4: for a tab-updated event with status `loading` and a url whose
computed domain label equals the label recorded for the tab id in
`groupByTabId`, the handler invokes no `organize()` pass and leaves the map
unchanged, even when auto-organize is enabled. -/
theorem onUpdated_unchanged_domain_noop (pd hn : String → String)
    (m : List (Nat × String)) (tabId : Nat) (u : String) (en : Bool)
    (hu : u ≠ "") (hrec : aget m tabId = some (pd (hn u))) :
    SiteOrganizer.onUpdatedListener pd hn m tabId ⟨some "loading", some u⟩ en
      = (m, false) := by
  simp [SiteOrganizer.onUpdatedListener, falsyStr, hu, hrec]

theorem onUpdated_unchanged_domain_noop_witness :
    (("a" : String) ≠ "" ∧
      aget [(5, "a")] 5 = some ((fun s => s) ((fun s => s) "a"))) ∧
    SiteOrganizer.onUpdatedListener (fun s => s) (fun s => s) [(5, "a")] 5
      ⟨some "loading", some "a"⟩ true = ([(5, "a")], false) :=
  ⟨⟨by decide, by decide⟩,
    onUpdated_unchanged_domain_noop (fun s => s) (fun s => s) [(5, "a")] 5
      "a" true (by decide) (by decide)⟩

/-- C5: the tab-removed handler unconditionally deletes the tab id's entry
from `groupByTabId` (the resulting map has no entry for that id regardless of
the auto-organize setting) and invokes `organize()` exactly when auto-organize
is enabled. -/
theorem onRemoved_cleanup (m : List (Nat × String)) (tabId : Nat)
    (en : Bool) :
    SiteOrganizer.onRemovedListener m tabId en = (adel m tabId, en) ∧
    aget (SiteOrganizer.onRemovedListener m tabId en).1 tabId = none := by
  constructor
  · cases en <;> simp [SiteOrganizer.onRemovedListener]
  · cases en <;> simp [SiteOrganizer.onRemovedListener, aget_adel_self]

/-- C10: for a tab-updated event with status `loading` and a nonempty url
whose tab id has no entry in `groupByTabId`, the handler records the computed
domain for that tab id and invokes `organize()` exactly when auto-organize is
enabled; the event is never an incremental no-op. -/
theorem onUpdated_first_navigation (pd hn : String → String)
    (m : List (Nat × String)) (tabId : Nat) (u : String) (en : Bool)
    (hu : u ≠ "") (habsent : aget m tabId = none) :
    SiteOrganizer.onUpdatedListener pd hn m tabId ⟨some "loading", some u⟩ en
      = (aset m tabId (pd (hn u)), en) ∧
    aget (aset m tabId (pd (hn u))) tabId = some (pd (hn u)) := by
  constructor
  · cases en <;> simp [SiteOrganizer.onUpdatedListener, falsyStr, hu, habsent]
  · exact aget_aset_self m tabId _

theorem onUpdated_first_navigation_witness :
    (("b" : String) ≠ "" ∧ aget ([] : List (Nat × String)) 7 = none) ∧
    (SiteOrganizer.onUpdatedListener (fun s => s) (fun s => s) [] 7
        ⟨some "loading", some "b"⟩ true = (aset [] 7 "b", true) ∧
      aget (aset ([] : List (Nat × String)) 7 "b") 7 = some "b") :=
  ⟨⟨by decide, by decide⟩,
    onUpdated_first_navigation (fun s => s) (fun s => s) [] 7 "b" true
      (by decide) (by decide)⟩

/-! ## C2: color index assignment (code-bug exhibit) -/

/-- C2: evaluating `renderBrowserTabGroups` on two bucket maps with the
identical set of real-group buckets (`(a,1)` and `(b,1)`), differing only in
the orphan bucket `(a,2)`, shows that the real group `b` receives color index
1 in the first run but color index 0 in the second: orphan buckets do shift
the color index of real groups (the code computes
`name position - orphan offset`, not a real-groups-first index), so the same
real-group set does not receive the same palette colors across runs. -/
theorem renderBrowserTabGroups_color_unstable :
    SiteOrganizer.realGroupBuckets
        [("a", [(1, [1, 2])]), ("b", [(1, [3, 4])])] = [("a", 1), ("b", 1)] ∧
    SiteOrganizer.realGroupBuckets
        [("a", [(1, [1, 2]), (2, [5])]), ("b", [(1, [3, 4])])] =
      [("a", 1), ("b", 1)] ∧
    SiteOrganizer.renderBrowserTabGroups
        [("a", [(1, [1, 2])]), ("b", [(1, [3, 4])])] =
      [SiteOrganizer.Cmd.group 0 "a" 1 [1, 2],
        SiteOrganizer.Cmd.group 1 "b" 1 [3, 4]] ∧
    SiteOrganizer.renderBrowserTabGroups
        [("a", [(1, [1, 2]), (2, [5])]), ("b", [(1, [3, 4])])] =
      [SiteOrganizer.Cmd.group 0 "a" 1 [1, 2],
        SiteOrganizer.Cmd.ungroup [5],
        SiteOrganizer.Cmd.group 0 "b" 1 [3, 4]] ∧
    SiteOrganizer.getColorForGroup SiteOrganizer.colorPalette 1 ≠
      SiteOrganizer.getColorForGroup SiteOrganizer.colorPalette 0 :=
  ⟨rfl, rfl, rfl, rfl, by decide⟩

/-! ## C9: tabs without a URL in clustering -/

/-- C9 counterexample: a single tab without a URL makes the current
`SiteOrganizer.sortTabIdsByDomain` fail with the error `"No tab url"` instead
of being excluded from clustering, so the `organize()` pass fails. -/
theorem sortTabIdsByDomain_fails_on_missing_url :
    SiteOrganizer.sortTabIdsByDomain (fun s => s) (fun s => s)
      [⟨some 1, none, 1, false⟩] = Except.error "No tab url" := rfl

theorem legacyClusterStep_eq (pd hn : String → String)
    (acc : List (String × List (Option Nat))) (t : Tab)
    (hf : falsyStr t.url = false) :
    TabOrganizer.legacyClusterStep pd hn acc t =
      match aget acc (TabOrganizer.legacyLabel pd hn t) with
      | none => aset acc (TabOrganizer.legacyLabel pd hn t) [t.id]
      | some ids => aset acc (TabOrganizer.legacyLabel pd hn t) (ids ++ [t.id]) := by
  unfold TabOrganizer.legacyClusterStep TabOrganizer.legacyLabel
  rw [if_neg (by simp [hf])]

theorem legacyClusterStep_skip (pd hn : String → String)
    (acc : List (String × List (Option Nat))) (t : Tab)
    (hf : falsyStr t.url = true) :
    TabOrganizer.legacyClusterStep pd hn acc t = acc := by
  unfold TabOrganizer.legacyClusterStep
  rw [if_pos hf]

theorem legacy_fold_ids (pd hn : String → String) (P : Option Nat → Prop) :
    ∀ (ts : List Tab) (acc : List (String × List (Option Nat))),
      (∀ d ids x, (d, ids) ∈ acc → x ∈ ids → P x) →
      (∀ t ∈ ts, falsyStr t.url = false → P t.id) →
      ∀ d ids x,
        (d, ids) ∈ ts.foldl (TabOrganizer.legacyClusterStep pd hn) acc →
        x ∈ ids → P x := by
  intro ts
  induction ts with
  | nil => intro acc hacc _ d ids x hmem hx; exact hacc d ids x hmem hx
  | cons t ts ih =>
    intro acc hacc hts d ids x hmem hx
    rw [List.foldl_cons] at hmem
    refine ih _ ?_ (fun t' ht' hf => hts t' (List.mem_cons_of_mem _ ht') hf)
      d ids x hmem hx
    intro d' ids' x' hmem' hx'
    by_cases hf : falsyStr t.url
    · rw [legacyClusterStep_skip pd hn acc t hf] at hmem'
      exact hacc _ _ _ hmem' hx'
    · have hf' : falsyStr t.url = false := by simpa using hf
      have hP : P t.id := hts t (List.mem_cons_self _ _) hf'
      rw [legacyClusterStep_eq pd hn acc t hf'] at hmem'
      cases haget : aget acc (TabOrganizer.legacyLabel pd hn t) with
      | none =>
        rw [haget] at hmem'
        rcases mem_aset hmem' with h1 | h1
        · exact hacc _ _ _ h1 hx'
        · have : ids' = [t.id] := congrArg Prod.snd h1
          rw [this] at hx'
          rw [List.mem_singleton.mp hx']
          exact hP
      | some ids0 =>
        rw [haget] at hmem'
        rcases mem_aset hmem' with h1 | h1
        · exact hacc _ _ _ h1 hx'
        · have : ids' = ids0 ++ [t.id] := congrArg Prod.snd h1
          rw [this] at hx'
          rcases List.mem_append.mp hx' with h2 | h2
          · exact hacc _ _ _ (aget_mem_pair haget) h2
          · rw [List.mem_singleton.mp h2]
            exact hP

theorem legacy_fold_preserve (pd hn : String → String) (d : String)
    (x : Option Nat) :
    ∀ (ts : List Tab) (acc : List (String × List (Option Nat)))
      (ids : List (Option Nat)), aget acc d = some ids → x ∈ ids →
      ∃ ids2,
        aget (ts.foldl (TabOrganizer.legacyClusterStep pd hn) acc) d =
          some ids2 ∧ x ∈ ids2 := by
  intro ts
  induction ts with
  | nil => intro acc ids h hx; exact ⟨ids, h, hx⟩
  | cons t ts ih =>
    intro acc ids h hx
    rw [List.foldl_cons]
    by_cases hf : falsyStr t.url
    · rw [legacyClusterStep_skip pd hn acc t hf]
      exact ih acc ids h hx
    · have hf' : falsyStr t.url = false := by simpa using hf
      rw [legacyClusterStep_eq pd hn acc t hf']
      by_cases hd : TabOrganizer.legacyLabel pd hn t = d
      · rw [hd, h]
        exact ih _ (ids ++ [t.id]) (hd ▸ (hd.symm ▸ aget_aset_self acc d _))
          (List.mem_append_left _ hx)
      · cases haget : aget acc (TabOrganizer.legacyLabel pd hn t) with
        | none =>
          exact ih _ ids
            ((aget_aset_ne acc _ d _ (fun hh => hd hh.symm)).trans h) hx
        | some ids0 =>
          exact ih _ ids
            ((aget_aset_ne acc _ d _ (fun hh => hd hh.symm)).trans h) hx

theorem legacy_fold_hit (pd hn : String → String) :
    ∀ (ts : List Tab) (acc : List (String × List (Option Nat))) (t : Tab),
      t ∈ ts → falsyStr t.url = false →
      ∃ ids,
        aget (ts.foldl (TabOrganizer.legacyClusterStep pd hn) acc)
          (TabOrganizer.legacyLabel pd hn t) = some ids ∧ t.id ∈ ids := by
  intro ts
  induction ts with
  | nil => intro acc t h _; exact absurd h (List.not_mem_nil _)
  | cons s ts ih =>
    intro acc t ht hf
    rw [List.foldl_cons]
    rcases List.mem_cons.mp ht with heq | ht'
    · subst heq
      rw [legacyClusterStep_eq pd hn acc t hf]
      cases haget : aget acc (TabOrganizer.legacyLabel pd hn t) with
      | none =>
        exact legacy_fold_preserve pd hn _ _ ts _ [t.id]
          (aget_aset_self acc _ _) (List.mem_singleton.mpr rfl)
      | some ids0 =>
        exact legacy_fold_preserve pd hn _ _ ts _ (ids0 ++ [t.id])
          (aget_aset_self acc _ _)
          (List.mem_append_right _ (List.mem_singleton.mpr rfl))
    · exact ih _ t ht' hf

theorem clusterStep_ok (pd hn : String → String)
    (acc : SiteOrganizer.Buckets) (t : Tab) (hid : falsyId t.id = false)
    (hf : falsyStr t.url = false) :
    ∃ acc', SiteOrganizer.clusterStep pd hn acc t = Except.ok acc' := by
  unfold SiteOrganizer.clusterStep
  rw [if_neg (by simp [hid]), if_neg (by simp [hf])]
  dsimp only
  cases aget acc (pd (hn (t.url.getD ""))) with
  | none => exact ⟨_, rfl⟩
  | some inner =>
    dsimp only
    cases aget inner t.windowId with
    | none => exact ⟨_, rfl⟩
    | some ids => exact ⟨_, rfl⟩

theorem clusterStep_url_error (pd hn : String → String)
    (acc : SiteOrganizer.Buckets) (t : Tab) (hid : falsyId t.id = false)
    (hf : falsyStr t.url = true) :
    SiteOrganizer.clusterStep pd hn acc t = Except.error "No tab url" := by
  unfold SiteOrganizer.clusterStep
  rw [if_neg (by simp [hid]), if_pos hf]

theorem cluster_error_on_missing_url (pd hn : String → String) :
    ∀ (ts : List Tab) (acc : SiteOrganizer.Buckets),
      (∀ t ∈ ts, falsyId t.id = false) →
      (∃ t ∈ ts, falsyStr t.url = true) →
      ts.foldlM (SiteOrganizer.clusterStep pd hn) acc =
        Except.error "No tab url" := by
  intro ts
  induction ts with
  | nil =>
    intro acc _ h
    rcases h with ⟨t, ht, _⟩
    exact absurd ht (List.not_mem_nil _)
  | cons s ts ih =>
    intro acc hid hex
    have hids : falsyId s.id = false := hid s (List.mem_cons_self _ _)
    rw [List.foldlM_cons]
    by_cases hf : falsyStr s.url
    · rw [clusterStep_url_error pd hn acc s hids hf]
      rfl
    · have hf' : falsyStr s.url = false := by simpa using hf
      obtain ⟨acc', hstep⟩ := clusterStep_ok pd hn acc s hids hf'
      rw [hstep]
      have hex' : ∃ t ∈ ts, falsyStr t.url = true := by
        rcases hex with ⟨t, ht, hft⟩
        rcases List.mem_cons.mp ht with heq | ht'
        · subst heq
          exact absurd hft (by simp [hf'])
        · exact ⟨t, ht', hft⟩
      have := ih acc' (fun t ht => hid t (List.mem_cons_of_mem _ ht)) hex'
      simpa using this

/-- C9 (amended): in the current `SiteOrganizer`, a non-pinned tab without a
usable URL makes the clustering step of `organize()` fail with the error
`"No tab url"` rather than being excluded; only the legacy `TabOrganizer`
clustering excludes tabs without a URL from every bucket (every bucket entry
originates from a tab with a usable url) and classifies tabs whose parsed
domain is empty under the `"system"` sentinel without failing. -/
theorem clustering_missing_url (pd hn : String → String) (ts : List Tab) :
    (∀ d ids x, (d, ids) ∈ TabOrganizer.sortTabIdsByDomain pd hn ts →
      x ∈ ids → ∃ t, t ∈ ts ∧ falsyStr t.url = false ∧ t.id = x) ∧
    (∀ t, t ∈ ts → falsyStr t.url = false →
      ∃ ids,
        aget (TabOrganizer.sortTabIdsByDomain pd hn ts)
          (TabOrganizer.legacyLabel pd hn t) = some ids ∧ t.id ∈ ids) ∧
    ((∀ t ∈ ts, falsyId t.id = false) →
      (∃ t ∈ ts, falsyStr t.url = true) →
      SiteOrganizer.sortTabIdsByDomain pd hn ts =
        Except.error "No tab url") := by
  refine ⟨?_, ?_, ?_⟩
  · intro d ids x hmem hx
    refine legacy_fold_ids pd hn
      (fun x => ∃ t, t ∈ ts ∧ falsyStr t.url = false ∧ t.id = x) ts [] ?_
      (fun t ht hf => ⟨t, ht, hf, rfl⟩) d ids x hmem hx
    intro d' ids' x' hmem'
    exact absurd hmem' (List.not_mem_nil _)
  · intro t ht hf
    exact legacy_fold_hit pd hn ts [] t ht hf
  · intro h1 h2
    exact cluster_error_on_missing_url pd hn ts [] h1 h2

theorem clustering_missing_url_witness :
    ((some 1 : Option Nat) ∈ ([some 1] : List (Option Nat)) ∧
      (⟨some 1, some "x", 1, false⟩ : Tab) ∈
        ([⟨some 1, some "x", 1, false⟩, ⟨some 2, none, 1, false⟩] :
          List Tab)) ∧
    (∃ ids,
      aget
        (TabOrganizer.sortTabIdsByDomain (fun s => if s = "x" then "" else s)
          (fun s => s)
          [⟨some 1, some "x", 1, false⟩, ⟨some 2, none, 1, false⟩])
        (TabOrganizer.legacyLabel (fun s => if s = "x" then "" else s)
          (fun s => s) ⟨some 1, some "x", 1, false⟩) = some ids ∧
      (some 1 : Option Nat) ∈ ids) ∧
    SiteOrganizer.sortTabIdsByDomain (fun s => if s = "x" then "" else s)
      (fun s => s)
      [⟨some 1, some "x", 1, false⟩, ⟨some 2, none, 1, false⟩] =
      Except.error "No tab url" :=
  ⟨⟨by decide, by decide⟩,
    (clustering_missing_url (fun s => if s = "x" then "" else s) (fun s => s)
      [⟨some 1, some "x", 1, false⟩, ⟨some 2, none, 1, false⟩]).2.1
      ⟨some 1, some "x", 1, false⟩ (by decide) (by decide),
    (clustering_missing_url (fun s => if s = "x" then "" else s) (fun s => s)
      [⟨some 1, some "x", 1, false⟩, ⟨some 2, none, 1, false⟩]).2.2
      (by decide) ⟨⟨some 2, none, 1, false⟩, by decide, by decide⟩⟩

/-! ## C1: sorting by domain label -/

theorem domainCompare_le_iff (a b : String) :
    SiteOrganizer.domainCompare a b ≤ 0 ↔
      a = b ∨ (a ≠ "new" ∧ b = "new") ∨ (a ≠ "new" ∧ b ≠ "new" ∧ a < b) := by
  unfold SiteOrganizer.domainCompare SiteOrganizer.lcmp
  split_ifs with h1 h2 h3 h4 <;> simp_all

theorem domainCompare_total (a b : String) :
    SiteOrganizer.domainCompare a b ≤ 0 ∨
      SiteOrganizer.domainCompare b a ≤ 0 := by
  rw [domainCompare_le_iff, domainCompare_le_iff]
  by_cases hab : a = b
  · exact Or.inl (Or.inl hab)
  · by_cases ha : a = "new"
    · subst ha
      exact Or.inr (Or.inr (Or.inl ⟨fun h => hab h.symm, rfl⟩))
    · by_cases hb : b = "new"
      · subst hb
        exact Or.inl (Or.inr (Or.inl ⟨ha, rfl⟩))
      · rcases lt_trichotomy a b with h | h | h
        · exact Or.inl (Or.inr (Or.inr ⟨ha, hb, h⟩))
        · exact absurd h hab
        · exact Or.inr (Or.inr (Or.inr ⟨hb, ha, h⟩))

theorem domainCompare_trans (a b c : String)
    (hab : SiteOrganizer.domainCompare a b ≤ 0)
    (hbc : SiteOrganizer.domainCompare b c ≤ 0) :
    SiteOrganizer.domainCompare a c ≤ 0 := by
  rw [domainCompare_le_iff] at hab hbc ⊢
  rcases hab with rfl | ⟨ha, rfl⟩ | ⟨ha, hb, hlt⟩
  · exact hbc
  · rcases hbc with rfl | ⟨h1, rfl⟩ | ⟨h1, h2, h3⟩
    · exact Or.inr (Or.inl ⟨ha, rfl⟩)
    · exact absurd rfl h1
    · exact absurd rfl h1
  · rcases hbc with rfl | ⟨h1, rfl⟩ | ⟨h1, h2, h3⟩
    · exact Or.inr (Or.inr ⟨ha, hb, hlt⟩)
    · exact Or.inr (Or.inl ⟨ha, rfl⟩)
    · exact Or.inr (Or.inr ⟨ha, h2, lt_trans hlt h3⟩)

theorem tabLe_total (pd hn : String → String) (a b : Tab) :
    SiteOrganizer.tabLe pd hn a b ∨ SiteOrganizer.tabLe pd hn b a :=
  domainCompare_total _ _

theorem tabLe_trans (pd hn : String → String) (a b c : Tab)
    (hab : SiteOrganizer.tabLe pd hn a b)
    (hbc : SiteOrganizer.tabLe pd hn b c) : SiteOrganizer.tabLe pd hn a c :=
  domainCompare_trans _ _ _ hab hbc

theorem tabLe_of_tabDomain_eq {pd hn : String → String} {a b : Tab}
    (h : SiteOrganizer.tabDomain pd hn a = SiteOrganizer.tabDomain pd hn b) :
    SiteOrganizer.tabLe pd hn a b := by
  unfold SiteOrganizer.tabLe
  rw [h]
  simp [SiteOrganizer.domainCompare]

theorem sortTabsAlphabetically_filter (pd hn : String → String) (d : String) :
    ∀ ts : List Tab,
      (SiteOrganizer.sortTabsAlphabetically pd hn ts).filter
          (fun t => SiteOrganizer.tabDomain pd hn t = d) =
        ts.filter (fun t => SiteOrganizer.tabDomain pd hn t = d) := by
  intro ts
  induction ts with
  | nil => rfl
  | cons x xs ih =>
    unfold SiteOrganizer.sortTabsAlphabetically at ih ⊢
    rw [List.insertionSort_cons_eq_take_drop, List.filter_append]
    have hsplit :
        ((List.insertionSort (SiteOrganizer.tabLe pd hn) xs).takeWhile
              (fun b => ¬SiteOrganizer.tabLe pd hn x b)).filter
            (fun t => SiteOrganizer.tabDomain pd hn t = d) ++
          ((List.insertionSort (SiteOrganizer.tabLe pd hn) xs).dropWhile
              (fun b => ¬SiteOrganizer.tabLe pd hn x b)).filter
            (fun t => SiteOrganizer.tabDomain pd hn t = d) =
          (List.insertionSort (SiteOrganizer.tabLe pd hn) xs).filter
            (fun t => SiteOrganizer.tabDomain pd hn t = d) := by
      rw [← List.filter_append, List.takeWhile_append_dropWhile]
    by_cases hd : SiteOrganizer.tabDomain pd hn x = d
    · have htake :
          ((List.insertionSort (SiteOrganizer.tabLe pd hn) xs).takeWhile
              (fun b => ¬SiteOrganizer.tabLe pd hn x b)).filter
            (fun t => SiteOrganizer.tabDomain pd hn t = d) = [] := by
        rw [List.filter_eq_nil_iff]
        intro t ht
        have hq := List.mem_takeWhile_imp ht
        simp only [decide_eq_true_eq] at hq
        simp only [decide_eq_true_eq]
        intro hdt
        exact hq (tabLe_of_tabDomain_eq (by rw [hdt, hd]))
      rw [htake, List.nil_append] at hsplit ⊢
      rw [List.filter_cons_of_pos (by simp [hd]),
        List.filter_cons_of_pos (by simp [hd]), hsplit, ih]
    · have hxfail : ¬(SiteOrganizer.tabDomain pd hn x = d) := hd
      rw [List.filter_cons_of_neg (by simp [hxfail]),
        List.filter_cons_of_neg (by simp [hxfail]), hsplit, ih]

/-- C1: `sortTabsAlphabetically` (the sequence `organize()` applies to the
browser) permutes the queried tab set into an order that is sorted by
`domainCompare` on the computed domain labels — ascending lexicographic with
the sentinel domain `"new"` always last — and tabs with equal domain labels
keep their relative order from the query (stable sort). -/
theorem sortTabsAlphabetically_spec (pd hn : String → String) (ts : List Tab)
    (hurl : ∀ t ∈ ts, falsyStr t.url = false) :
    (SiteOrganizer.sortTabsAlphabetically pd hn ts).Perm ts ∧
    List.Pairwise
      (fun a b =>
        SiteOrganizer.domainCompare (SiteOrganizer.tabDomain pd hn a)
          (SiteOrganizer.tabDomain pd hn b) ≤ 0)
      (SiteOrganizer.sortTabsAlphabetically pd hn ts) ∧
    ∀ d,
      (SiteOrganizer.sortTabsAlphabetically pd hn ts).filter
          (fun t => SiteOrganizer.tabDomain pd hn t = d) =
        ts.filter (fun t => SiteOrganizer.tabDomain pd hn t = d) := by
  refine ⟨List.perm_insertionSort _ _, ?_,
    fun d => sortTabsAlphabetically_filter pd hn d ts⟩
  show List.Sorted (SiteOrganizer.tabLe pd hn)
    (SiteOrganizer.sortTabsAlphabetically pd hn ts)
  haveI : IsTotal Tab (SiteOrganizer.tabLe pd hn) := ⟨tabLe_total pd hn⟩
  haveI : IsTrans Tab (SiteOrganizer.tabLe pd hn) := ⟨tabLe_trans pd hn⟩
  exact List.sorted_insertionSort _ ts

theorem sortTabsAlphabetically_spec_witness :
    (∀ t ∈ ([⟨some 1, some "b", 1, false⟩, ⟨some 2, some "new", 1, false⟩,
        ⟨some 3, some "a", 1, false⟩, ⟨some 4, some "a", 1, false⟩] :
          List Tab),
      falsyStr t.url = false) ∧
    ((SiteOrganizer.sortTabsAlphabetically (fun s => s) (fun s => s)
        [⟨some 1, some "b", 1, false⟩, ⟨some 2, some "new", 1, false⟩,
          ⟨some 3, some "a", 1, false⟩, ⟨some 4, some "a", 1, false⟩]).Perm
        [⟨some 1, some "b", 1, false⟩, ⟨some 2, some "new", 1, false⟩,
          ⟨some 3, some "a", 1, false⟩, ⟨some 4, some "a", 1, false⟩] ∧
      List.Pairwise
        (fun a b =>
          SiteOrganizer.domainCompare
            (SiteOrganizer.tabDomain (fun s => s) (fun s => s) a)
            (SiteOrganizer.tabDomain (fun s => s) (fun s => s) b) ≤ 0)
        (SiteOrganizer.sortTabsAlphabetically (fun s => s) (fun s => s)
          [⟨some 1, some "b", 1, false⟩, ⟨some 2, some "new", 1, false⟩,
            ⟨some 3, some "a", 1, false⟩, ⟨some 4, some "a", 1, false⟩]) ∧
      ∀ d,
        (SiteOrganizer.sortTabsAlphabetically (fun s => s) (fun s => s)
            [⟨some 1, some "b", 1, false⟩, ⟨some 2, some "new", 1, false⟩,
              ⟨some 3, some "a", 1, false⟩,
              ⟨some 4, some "a", 1, false⟩]).filter
            (fun t => SiteOrganizer.tabDomain (fun s => s) (fun s => s) t = d) =
          ([⟨some 1, some "b", 1, false⟩, ⟨some 2, some "new", 1, false⟩,
            ⟨some 3, some "a", 1, false⟩,
            ⟨some 4, some "a", 1, false⟩] : List Tab).filter
            (fun t => SiteOrganizer.tabDomain (fun s => s) (fun s => s) t = d)) :=
  ⟨by decide,
    sortTabsAlphabetically_spec (fun s => s) (fun s => s)
      [⟨some 1, some "b", 1, false⟩, ⟨some 2, some "new", 1, false⟩,
        ⟨some 3, some "a", 1, false⟩, ⟨some 4, some "a", 1, false⟩]
      (by decide)⟩

/-! ## C3: clustering cardinality -/

theorem renderBucket_mono {idx : Int} {name : String} {c : SiteOrganizer.Cmd} :
    ∀ (l : List (Nat × List Nat)) (st : Int × List SiteOrganizer.Cmd),
      c ∈ st.2 →
      c ∈ (l.foldl (SiteOrganizer.renderBucket idx name) st).2 := by
  intro l
  induction l with
  | nil => intro st h; exact h
  | cons wg l ih =>
    intro st h
    rw [List.foldl_cons]
    refine ih _ ?_
    unfold SiteOrganizer.renderBucket
    by_cases hw : wg.2.length < 2
    · rw [if_pos hw]
      exact List.mem_append_left _ h
    · rw [if_neg hw]
      exact List.mem_append_left _ h

theorem renderName_mono {c : SiteOrganizer.Cmd} :
    ∀ (l : List (Nat × (String × List (Nat × List Nat))))
      (st : Int × List SiteOrganizer.Cmd),
      c ∈ st.2 → c ∈ (l.foldl SiteOrganizer.renderName st).2 := by
  intro l
  induction l with
  | nil => intro st h; exact h
  | cons a l ih =>
    intro st h
    rw [List.foldl_cons]
    exact ih _ (renderBucket_mono _ _ h)

theorem renderBucket_ge2 {idx : Int} {name : String} :
    ∀ (l : List (Nat × List Nat)) (st : Int × List SiteOrganizer.Cmd),
      (∀ i n w ids, SiteOrganizer.Cmd.group i n w ids ∈ st.2 →
        2 ≤ ids.length) →
      ∀ i n w ids,
        SiteOrganizer.Cmd.group i n w ids ∈
          (l.foldl (SiteOrganizer.renderBucket idx name) st).2 →
        2 ≤ ids.length := by
  intro l
  induction l with
  | nil => intro st hst; exact hst
  | cons wg l ih =>
    intro st hst
    rw [List.foldl_cons]
    refine ih _ ?_
    intro i n w ids hmem
    unfold SiteOrganizer.renderBucket at hmem
    by_cases hw : wg.2.length < 2
    · rw [if_pos hw] at hmem
      rcases List.mem_append.mp hmem with h | h
      · exact hst i n w ids h
      · rw [List.mem_singleton] at h
        exact absurd h (by simp)
    · rw [if_neg hw] at hmem
      rcases List.mem_append.mp hmem with h | h
      · exact hst i n w ids h
      · rw [List.mem_singleton, SiteOrganizer.Cmd.group.injEq] at h
        obtain ⟨-, -, -, h4⟩ := h
        subst h4
        omega

theorem renderName_ge2 :
    ∀ (l : List (Nat × (String × List (Nat × List Nat))))
      (st : Int × List SiteOrganizer.Cmd),
      (∀ i n w ids, SiteOrganizer.Cmd.group i n w ids ∈ st.2 →
        2 ≤ ids.length) →
      ∀ i n w ids,
        SiteOrganizer.Cmd.group i n w ids ∈
          (l.foldl SiteOrganizer.renderName st).2 →
        2 ≤ ids.length := by
  intro l
  induction l with
  | nil => intro st hst; exact hst
  | cons a l ih =>
    intro st hst
    rw [List.foldl_cons]
    exact ih _ (renderBucket_ge2 _ _ hst)

theorem renderBucket_hit {idx : Int} {name : String} {w : Nat}
    {ids : List Nat} (hlen : ids.length = 1) :
    ∀ (l : List (Nat × List Nat)) (st : Int × List SiteOrganizer.Cmd),
      (w, ids) ∈ l →
      SiteOrganizer.Cmd.ungroup ids ∈
        (l.foldl (SiteOrganizer.renderBucket idx name) st).2 := by
  intro l
  induction l with
  | nil => intro st h; exact absurd h (List.not_mem_nil _)
  | cons wg l ih =>
    intro st hmem
    rw [List.foldl_cons]
    rcases List.mem_cons.mp hmem with heq | h'
    · subst heq
      refine renderBucket_mono l _ ?_
      unfold SiteOrganizer.renderBucket
      rw [if_pos (show (w, ids).2.length < 2 by simp [hlen])]
      exact List.mem_append_right _ (List.mem_singleton.mpr rfl)
    · exact ih _ h'

theorem renderName_hit {name : String} {ws : List (Nat × List Nat)} {w : Nat}
    {ids : List Nat} (hlen : ids.length = 1) (hws : (w, ids) ∈ ws) :
    ∀ (l : List (Nat × (String × List (Nat × List Nat))))
      (st : Int × List SiteOrganizer.Cmd) (i : Nat),
      (i, (name, ws)) ∈ l →
      SiteOrganizer.Cmd.ungroup ids ∈ (l.foldl SiteOrganizer.renderName st).2 := by
  intro l
  induction l with
  | nil => intro st i h; exact absurd h (List.not_mem_nil _)
  | cons a l ih =>
    intro st i hmem
    rw [List.foldl_cons]
    rcases List.mem_cons.mp hmem with heq | h'
    · subst heq
      refine renderName_mono l _ ?_
      have horph : (w, ids) ∈ ws.filter (fun x => ¬x.2.length > 1) :=
        List.mem_filter.mpr ⟨hws, by simp [hlen]⟩
      have hcat : (w, ids) ∈
          ws.filter (fun x => x.2.length > 1) ++
            ws.filter (fun x => ¬x.2.length > 1) :=
        List.mem_append_right _ horph
      exact renderBucket_hit hlen _ st hcat
    · exact ih _ i h'

theorem exists_enumFrom_mem {α : Type} (a : α) :
    ∀ (l : List α) (n : Nat), a ∈ l → ∃ i, (i, a) ∈ l.enumFrom n := by
  intro l
  induction l with
  | nil => intro n h; exact absurd h (List.not_mem_nil _)
  | cons x l ih =>
    intro n h
    rcases List.mem_cons.mp h with heq | h'
    · refine ⟨n, ?_⟩
      rw [heq]
      exact List.mem_cons_self _ _
    · obtain ⟨i, hi⟩ := ih (n + 1) h'
      exact ⟨i, List.mem_cons_of_mem _ hi⟩

/-- C3: every native group created by an `organize()` pass has at least two
member tabs, and for every `(domain, windowId)` bucket holding exactly one
tab an ungroup command is issued for that tab; no group is created from a
single-tab bucket. -/
theorem renderBrowserTabGroups_cardinality (pd hn : String → String)
    (ts : List Tab) (g : SiteOrganizer.Buckets)
    (hg : SiteOrganizer.sortTabIdsByDomain pd hn ts = Except.ok g) :
    (∀ i n w ids,
      SiteOrganizer.Cmd.group i n w ids ∈
        SiteOrganizer.renderBrowserTabGroups g →
      2 ≤ ids.length) ∧
    (∀ n ws w ids, (n, ws) ∈ g → (w, ids) ∈ ws → ids.length = 1 →
      SiteOrganizer.Cmd.ungroup ids ∈
        SiteOrganizer.renderBrowserTabGroups g) := by
  constructor
  · intro i n w ids hmem
    refine renderName_ge2 g.enum (0, []) ?_ i n w ids hmem
    intro i' n' w' ids' hmem'
    exact absurd hmem' (List.not_mem_nil _)
  · intro n ws w ids hmemg hws hlen
    obtain ⟨i, hi⟩ := exists_enumFrom_mem (n, ws) g 0 hmemg
    exact renderName_hit hlen hws g.enum (0, []) i hi

theorem renderBrowserTabGroups_cardinality_witness :
    (SiteOrganizer.sortTabIdsByDomain (fun s => s) (fun s => s)
        [⟨some 1, some "a", 1, false⟩, ⟨some 2, some "b", 1, false⟩,
          ⟨some 3, some "a", 1, false⟩] =
      Except.ok [("a", [(1, [1, 3])]), ("b", [(1, [2])])] ∧
      ("b", [(1, [2])]) ∈
        ([("a", [(1, [1, 3])]), ("b", [(1, [2])])] :
          SiteOrganizer.Buckets) ∧
      ((1 : Nat), [2]) ∈ [(1, [2])] ∧ ([2] : List Nat).length = 1) ∧
    SiteOrganizer.Cmd.ungroup [2] ∈
      SiteOrganizer.renderBrowserTabGroups
        [("a", [(1, [1, 3])]), ("b", [(1, [2])])] :=
  ⟨⟨rfl, by decide, by decide, by decide⟩,
    (renderBrowserTabGroups_cardinality (fun s => s) (fun s => s)
        [⟨some 1, some "a", 1, false⟩, ⟨some 2, some "b", 1, false⟩,
          ⟨some 3, some "a", 1, false⟩]
        [("a", [(1, [1, 3])]), ("b", [(1, [2])])] rfl).2
      "b" [(1, [2])] 1 [2] (by decide) (by decide) (by decide)⟩

/-! ## C8: setState merge semantics -/

/-- C8: `setState` merges the partial state into the in-memory state before
issuing the storage write (the written payload is the merged state), the
error of a failed write is surfaced to the caller, and the in-memory merge is
never rolled back; in particular merging `flagA := false` into
`flagA = flagB = true` yields `flagA = false, flagB = true` in memory whether
or not the write succeeded. -/
theorem setState_merge_not_rolled_back :
    (∀ (V : Type) (s p : List (String × V)) (ok : Bool),
      (Store.setState s p ok).mem = Store.setInternalState s p ∧
      (Store.setState s p ok).written = Store.setInternalState s p ∧
      ((Store.setState s p ok).outcome = Except.ok () ↔ ok = true)) ∧
    (∀ ok : Bool,
      (Store.setState [("flagA", true), ("flagB", true)] [("flagA", false)]
          ok).mem = [("flagA", false), ("flagB", true)]) := by
  constructor
  · intro V s p ok
    refine ⟨rfl, rfl, ?_⟩
    cases ok <;> simp [Store.setState]
  · intro ok
    cases ok <;> rfl

/-! ## C6, C7: settings migration -/

theorem aget_mem_keyList {K V : Type} [DecidableEq K] {o : List (K × V)}
    {k : K} {v : V} (h : aget o k = some v) : k ∈ keyList o :=
  List.mem_map.mpr ⟨(k, v), aget_mem_pair h, rfl⟩

theorem aget_eq_none_of_not_mem {K V : Type} [DecidableEq K]
    {o : List (K × V)} {k : K} (h : k ∉ keyList o) : aget o k = none := by
  induction o with
  | nil => rfl
  | cons p rest ih =>
    have h1 : ¬(p.1 = k) := fun he =>
      h (show k ∈ keyList (p :: rest) from by
        rw [show keyList (p :: rest) = p.1 :: keyList rest from rfl, he]
        exact List.mem_cons_self _ _)
    rw [aget, if_neg h1]
    exact ih (fun hm => h (List.mem_cons_of_mem _ hm))

theorem getMigratedKey_eq {a mk : String}
    (h : Store.getMigratedKey a = some mk) : mk = "enableAlphabeticSorting" := by
  unfold Store.getMigratedKey at h
  by_cases ha : a = "enableAutomaticSorting"
  · rw [if_pos ha] at h
    exact (Option.some_injective _ h).symm
  · rw [if_neg ha] at h
    exact absurd h (by simp)

theorem legacy_key_eq (k : String) (h : Store.isLegacyKeyValid k = true) :
    k = "enableAutomaticSorting" := by
  simpa [Store.isLegacyKeyValid, Store.makeLegacyState, keyList] using h

theorem valid_not_legacy (k : String) (h : Store.isKeyValid k = true) :
    Store.isLegacyKeyValid k = false := by
  have h2 : k = "clusterGroupedTabs" ∨ k = "enableAutomaticGrouping" ∨
      k = "enableAlphabeticSorting" ∨ k = "enableSubdomainFiltering" ∨
      k = "forceWindowConsolidation" := by
    simpa [Store.isKeyValid, Store.makeDefaultState, keyList] using h
  rcases h2 with rfl | rfl | rfl | rfl | rfl <;> rfl

theorem keys_copyValid_fold {V : Type} (blob : List (String × V)) :
    ∀ (l : List String) (init : List (String × V)) (k' : String),
      k' ∈ keyList (l.foldl (Store.copyValidStep blob) init) →
      k' ∈ keyList init ∨ k' ∈ l := by
  intro l
  induction l with
  | nil => intro init k' h; exact Or.inl h
  | cons a l ih =>
    intro init k' h
    rw [List.foldl_cons] at h
    rcases ih _ k' h with h1 | h1
    · unfold Store.copyValidStep at h1
      cases hget : aget blob a with
      | none =>
        rw [hget] at h1
        exact Or.inl h1
      | some w =>
        rw [hget] at h1
        rcases mem_keyList_aset h1 with h2 | h2
        · exact Or.inl h2
        · exact Or.inr (h2 ▸ List.mem_cons_self _ _)
    · exact Or.inr (List.mem_cons_of_mem _ h1)

theorem keys_migrate_fold {V : Type} (blob : List (String × V)) :
    ∀ (l : List String) (init : List (String × V)) (k' : String),
      k' ∈ keyList (l.foldl (Store.migrateStep blob) init) →
      k' ∈ keyList init ∨ k' = "enableAlphabeticSorting" := by
  intro l
  induction l with
  | nil => intro init k' h; exact Or.inl h
  | cons a l ih =>
    intro init k' h
    rw [List.foldl_cons] at h
    rcases ih _ k' h with h1 | h1
    · unfold Store.migrateStep at h1
      cases hgm : Store.getMigratedKey a with
      | none =>
        rw [hgm] at h1
        exact Or.inl h1
      | some mk =>
        rw [hgm] at h1
        cases hget : aget blob a with
        | none =>
          rw [hget] at h1
          exact Or.inl h1
        | some w =>
          rw [hget] at h1
          rcases mem_keyList_aset h1 with h2 | h2
          · exact Or.inl h2
          · exact Or.inr (h2.trans (getMigratedKey_eq hgm))
    · exact Or.inr h1

theorem keys_amerge {K V : Type} [DecidableEq K] :
    ∀ (b a : List (K × V)) (k' : K), k' ∈ keyList (amerge a b) →
      k' ∈ keyList a ∨ k' ∈ keyList b := by
  intro b
  induction b with
  | nil => intro a k' h; exact Or.inl h
  | cons p b ih =>
    intro a k' h
    rcases ih (aset a p.1 p.2) k' h with h1 | h1
    · rcases mem_keyList_aset h1 with h2 | h2
      · exact Or.inl h2
      · refine Or.inr ?_
        rw [show keyList (p :: b) = p.1 :: keyList b from rfl, h2]
        exact List.mem_cons_self _ _
    · refine Or.inr ?_
      rw [show keyList (p :: b) = p.1 :: keyList b from rfl]
      exact List.mem_cons_of_mem _ h1

theorem nodup_copyValid_fold {V : Type} (blob : List (String × V)) :
    ∀ (l : List String) (init : List (String × V)),
      (keyList init).Nodup →
      (keyList (l.foldl (Store.copyValidStep blob) init)).Nodup := by
  intro l
  induction l with
  | nil => intro init h; exact h
  | cons a l ih =>
    intro init h
    rw [List.foldl_cons]
    refine ih _ ?_
    unfold Store.copyValidStep
    cases aget blob a with
    | none => exact h
    | some w => exact nodup_keyList_aset h

theorem nodup_amerge {K V : Type} [DecidableEq K] :
    ∀ (b a : List (K × V)), (keyList a).Nodup →
      (keyList (amerge a b)).Nodup := by
  intro b
  induction b with
  | nil => intro a h; exact h
  | cons p b ih =>
    intro a h
    exact ih (aset a p.1 p.2) (nodup_keyList_aset h)

theorem keys_parseValidState_valid {V : Type} (blob : List (String × V)) :
    ∀ k ∈ keyList (Store.parseValidState blob), Store.isKeyValid k = true := by
  intro k hk
  rcases keys_amerge _ _ k hk with h1 | h1
  · rcases keys_copyValid_fold blob _ [] k h1 with h2 | h2
    · exact absurd h2 (List.not_mem_nil _)
    · exact (List.mem_filter.mp h2).2
  · rcases keys_migrate_fold blob _ [] k h1 with h2 | h2
    · exact absurd h2 (List.not_mem_nil _)
    · rw [h2]
      rfl

theorem nodup_keys_parseValidState {V : Type} (blob : List (String × V)) :
    (keyList (Store.parseValidState blob)).Nodup :=
  nodup_amerge _ _ (nodup_copyValid_fold blob _ [] List.nodup_nil)

theorem migrateState_nil {V : Type} (state : List (String × V))
    (ks : List String) (h : ∀ k ∈ ks, Store.isKeyValid k = true) :
    Store.migrateState ks state = [] := by
  unfold Store.migrateState
  have hfil : ks.filter Store.isLegacyKeyValid = [] := by
    rw [List.filter_eq_nil_iff]
    intro k hk
    simp [valid_not_legacy k (h k hk)]
  rw [hfil]
  rfl

theorem copyValid_shift {V : Type} (blob : List (String × V)) (k : String)
    (v : V) :
    ∀ (l : List String) (acc : List (String × V)), (∀ k' ∈ l, k' ≠ k) →
      l.foldl (Store.copyValidStep ((k, v) :: blob)) ((k, v) :: acc) =
        (k, v) :: l.foldl (Store.copyValidStep blob) acc := by
  intro l
  induction l with
  | nil => intro acc _; rfl
  | cons a l ih =>
    intro acc hne
    have ha : a ≠ k := hne a (List.mem_cons_self _ _)
    have hk : ¬(k = a) := fun h => ha h.symm
    rw [List.foldl_cons, List.foldl_cons]
    have hgets : aget ((k, v) :: blob) a = aget blob a := by
      rw [aget, if_neg hk]
    have hsteps : Store.copyValidStep ((k, v) :: blob) ((k, v) :: acc) a =
        (k, v) :: Store.copyValidStep blob acc a := by
      unfold Store.copyValidStep
      rw [hgets]
      cases aget blob a with
      | none => rfl
      | some w =>
        show aset ((k, v) :: acc) a w = (k, v) :: aset acc a w
        rw [aset, if_neg hk]
    rw [hsteps]
    exact ih _ (fun x hx => hne x (List.mem_cons_of_mem _ hx))

theorem rebuild_self {V : Type} :
    ∀ (o : List (String × V)), (keyList o).Nodup →
      (keyList o).foldl (Store.copyValidStep o) [] = o := by
  intro o
  induction o with
  | nil => intro _; rfl
  | cons p rest ih =>
    intro hnd
    obtain ⟨k, v⟩ := p
    have hkl : keyList ((k, v) :: rest) = k :: keyList rest := rfl
    rw [hkl] at hnd ⊢
    rw [List.nodup_cons] at hnd
    rw [List.foldl_cons]
    have hstep : Store.copyValidStep ((k, v) :: rest) [] k = [(k, v)] := by
      unfold Store.copyValidStep
      rw [show aget ((k, v) :: rest) k = some v from by rw [aget, if_pos rfl]]
      rfl
    rw [hstep]
    rw [copyValid_shift rest k v (keyList rest) []
      (fun x hx h => hnd.1 (h ▸ hx))]
    rw [ih hnd.2]

/-- C6: the migration step `parseValidState` is idempotent — applying it to
its own output reproduces that output — and every key of the resulting state
is a key of the current schema (legacy and unknown keys never appear). -/
theorem parseValidState_idempotent (V : Type) (blob : List (String × V)) :
    Store.parseValidState (Store.parseValidState blob) =
      Store.parseValidState blob ∧
    ∀ k ∈ keyList (Store.parseValidState blob), Store.isKeyValid k = true := by
  refine ⟨?_, keys_parseValidState_valid blob⟩
  have hvalid := keys_parseValidState_valid blob
  have hnodup := nodup_keys_parseValidState blob
  show amerge
      (((keyList (Store.parseValidState blob)).filter Store.isKeyValid).foldl
        (Store.copyValidStep (Store.parseValidState blob)) [])
      (Store.migrateState (keyList (Store.parseValidState blob))
        (Store.parseValidState blob)) =
    Store.parseValidState blob
  rw [List.filter_eq_self.mpr (by
    intro k hk
    simpa using hvalid k hk)]
  rw [migrateState_nil _ _ hvalid]
  show (keyList (Store.parseValidState blob)).foldl
      (Store.copyValidStep (Store.parseValidState blob)) [] =
    Store.parseValidState blob
  exact rebuild_self _ hnodup

theorem parseValidState_idempotent_witness :
    Store.parseValidState
        (Store.parseValidState
          [("enableAutomaticSorting", false), ("junk", true)]) =
      Store.parseValidState
        [("enableAutomaticSorting", false), ("junk", true)] ∧
    ("enableAlphabeticSorting" ∈
      keyList
        (Store.parseValidState
          [("enableAutomaticSorting", false), ("junk", true)])) ∧
    Store.isKeyValid "enableAlphabeticSorting" = true :=
  ⟨(parseValidState_idempotent Bool
      [("enableAutomaticSorting", false), ("junk", true)]).1,
    by decide,
    (parseValidState_idempotent Bool
        [("enableAutomaticSorting", false), ("junk", true)]).2
      "enableAlphabeticSorting" (by decide)⟩

theorem migrateFold_fix {V : Type} (blob : List (String × V)) (v : V)
    (hv : aget blob "enableAutomaticSorting" = some v) :
    ∀ l : List String, (∀ x ∈ l, x = "enableAutomaticSorting") →
      l.foldl (Store.migrateStep blob) [("enableAlphabeticSorting", v)] =
        [("enableAlphabeticSorting", v)] := by
  intro l
  induction l with
  | nil => intro _; rfl
  | cons a l ih =>
    intro h
    have ha := h a (List.mem_cons_self _ _)
    subst ha
    rw [List.foldl_cons]
    have hstep : Store.migrateStep blob [("enableAlphabeticSorting", v)]
        "enableAutomaticSorting" = [("enableAlphabeticSorting", v)] := by
      unfold Store.migrateStep
      rw [hv]
      rfl
    rw [hstep]
    exact ih (fun x hx => h x (List.mem_cons_of_mem _ hx))

theorem migrateState_of_legacy {V : Type} (blob : List (String × V)) (v : V)
    (hv : aget blob "enableAutomaticSorting" = some v) :
    Store.migrateState (keyList blob) blob =
      [("enableAlphabeticSorting", v)] := by
  unfold Store.migrateState
  have hmem : "enableAutomaticSorting" ∈
      (keyList blob).filter Store.isLegacyKeyValid :=
    List.mem_filter.mpr ⟨aget_mem_keyList hv, by rfl⟩
  have hall : ∀ x ∈ (keyList blob).filter Store.isLegacyKeyValid,
      x = "enableAutomaticSorting" := fun x hx =>
    legacy_key_eq x (List.mem_filter.mp hx).2
  cases hfe : (keyList blob).filter Store.isLegacyKeyValid with
  | nil =>
    rw [hfe] at hmem
    exact absurd hmem (List.not_mem_nil _)
  | cons a l =>
    rw [hfe] at hall
    have ha : a = "enableAutomaticSorting" := hall a (List.mem_cons_self _ _)
    subst ha
    rw [List.foldl_cons]
    have hstep : Store.migrateStep blob [] "enableAutomaticSorting" =
        [("enableAlphabeticSorting", v)] := by
      unfold Store.migrateStep
      rw [hv]
      rfl
    rw [hstep]
    exact migrateFold_fix blob v hv l
      (fun x hx => hall x (List.mem_cons_of_mem _ hx))

/-- C7: in `parseValidState` the migrated value of the legacy key
`enableAutomaticSorting` overwrites any schema-valid value of
`enableAlphabeticSorting` (migration wins on conflict), the legacy key itself
never appears in the result, and the blob with only
`enableAutomaticSorting = false` yields exactly
`enableAlphabeticSorting = false`. -/
theorem parseValidState_migration_wins :
    (∀ (V : Type) (blob : List (String × V)) (v : V),
      aget blob "enableAutomaticSorting" = some v →
      aget (Store.parseValidState blob) "enableAlphabeticSorting" = some v) ∧
    (∀ (V : Type) (blob : List (String × V)),
      aget (Store.parseValidState blob) "enableAutomaticSorting" = none) ∧
    Store.parseValidState [("enableAutomaticSorting", false)] =
      [("enableAlphabeticSorting", false)] := by
  refine ⟨?_, ?_, rfl⟩
  · intro V blob v hv
    show aget
        (amerge
          (((keyList blob).filter Store.isKeyValid).foldl
            (Store.copyValidStep blob) [])
          (Store.migrateState (keyList blob) blob))
        "enableAlphabeticSorting" = some v
    rw [migrateState_of_legacy blob v hv]
    exact aget_aset_self _ _ _
  · intro V blob
    refine aget_eq_none_of_not_mem (fun hmem => ?_)
    have := keys_parseValidState_valid blob _ hmem
    exact absurd this (by decide)

theorem parseValidState_migration_wins_witness :
    aget [("enableAlphabeticSorting", true), ("enableAutomaticSorting", false)]
        "enableAutomaticSorting" = some false ∧
    aget
        (Store.parseValidState
          [("enableAlphabeticSorting", true),
            ("enableAutomaticSorting", false)])
        "enableAlphabeticSorting" = some false :=
  ⟨rfl,
    parseValidState_migration_wins.1 Bool
      [("enableAlphabeticSorting", true), ("enableAutomaticSorting", false)]
      false rfl⟩

end MarkTab
